import Mathlib

/-!
Verification of the Discord delivery subsystem of rp-chat-logger
(chunker, webhook sender, delivery queue, ingestion handler).

Strings are modelled as lists of characters; Go byte indexing becomes list
indexing. Go slice panics are modelled by returning none, and the unbounded
split loop is modelled with an explicit fuel parameter whose exhaustion at
every fuel value witnesses divergence.
-/

namespace RpChatLogger

def toChars (s : String) : List Char := s.data

/-- The three-character continuation marker "...". -/
def dots3 : List Char := ['.', '.', '.']

/-- The four-character leading marker "... " put in front of a remainder. -/
def dots4 : List Char := ['.', '.', '.', ' ']

/-- The four-character trailing marker " ..." appended to a chunk. -/
def spaceDots : List Char := [' ', '.', '.', '.']

/-- Backward scan of the Go loop in extractChunk:
for end > 0 && msg[end] != ' ' { end-- }.
Returns the final value of end. Accesses are in bounds at every call site,
so the getD default is never consulted. -/
def scanBack (msg : List Char) : Nat → Nat
  | 0 => 0
  | e + 1 => if msg.getD (e + 1) '?' = ' ' then e + 1 else scanBack msg e

/-- Model of extractChunk (discord.go lines 231-256). The Go variable end is
an int and goes negative when maxLength < 4 and the message is longer than
maxLength; the slice msg[:end] then panics, modelled as none. -/
def extractChunk (msg : List Char) (maxLength : Int) : Option (List Char × List Char) :=
  if (msg.length : Int) < maxLength then some (msg, [])
  else if (msg.length : Int) = maxLength then some (dots3, dots4 ++ msg)
  else
    let e0 : Int := maxLength - 4
    if e0 < 0 then none
    else if e0 = 0 then some (dots3, dots4 ++ msg)
    else
      let e := scanBack msg e0.toNat
      if e = 0 then some (dots3, dots4 ++ msg)
      else some (msg.take e ++ spaceDots, dots4 ++ msg.drop (e + 1))

/-- Result of running the split loop under a fuel bound. -/
inductive SplitResult where
  | chunksOut (cs : List (List Char))
  | panicked
  | outOfFuel
deriving DecidableEq

/-- The remainder adjustment at the bottom of the splitMessage loop
(discord.go lines 268-272): prepend "..." unless the remainder is empty or
already starts with "...". Matches strings.HasPrefix via take 3. -/
def nextOf (rm : List Char) : List Char :=
  if rm ≠ [] ∧ rm.take 3 ≠ dots3 then dots3 ++ rm else rm

/-- Fuel-bounded model of the splitMessage loop (discord.go lines 260-275).
Each loop iteration consumes one unit of fuel; outOfFuel for every fuel
value means the Go loop never terminates. -/
def splitLoop (size : Int) (base : List Char) : Nat → List Char → SplitResult
  | _, [] => SplitResult.chunksOut []
  | 0, _ :: _ => SplitResult.outOfFuel
  | f + 1, a :: l =>
    match extractChunk (a :: l) size with
    | none => SplitResult.panicked
    | some (ck, rm) =>
      match splitLoop size base f (nextOf rm) with
      | SplitResult.chunksOut cs => SplitResult.chunksOut ((base ++ ck) :: cs)
      | other => other

/-- Model of splitMessage (discord.go lines 260-275), fuel-bounded. -/
def splitMessage (fuel : Nat) (base msg : List Char) (size : Int) : SplitResult :=
  splitLoop size base fuel msg

/-- The response the webhook gives to one chunk POST: either a transport
error from the HTTP client, or a status code together with the Retry-After
header, where none is an absent (or empty) header, some none a present but
unparseable one, and some (some q) one that ParseFloat reads as q. Parsed
values are modelled as exact rationals. -/
inductive ChunkResp where
  | transportError
  | status (code : Nat) (retryHdr : Option (Option Rat))
deriving DecidableEq

def respCode : ChunkResp → Option Nat
  | ChunkResp.transportError => none
  | ChunkResp.status c _ => some c

/-- Go conversion time.Duration(seconds*1000): float64 to int64 truncates
toward zero. -/
def ratTrunc (q : Rat) : Int := Int.tdiv q.num (q.den : Int)

/-- Retry delay in milliseconds computed by the 429 branch of
sendToDiscordWithRetry (discord.go lines 193-200): default 5 seconds,
overridden by a parseable Retry-After header. -/
def retryMsOf : Option (Option Rat) → Int
  | none => 5000
  | some none => 5000
  | some (some q) => ratTrunc (q * 1000)

/-- Outcome of sendToDiscordWithRetry, which in Go is the pair
(retryAfter, err): ok is (0, nil), rateLimited ms is (ms, non-nil),
httpError and transport are (0, non-nil). -/
inductive SendResult where
  | ok
  | rateLimited (ms : Int)
  | httpError (code : Nat)
  | transport
deriving DecidableEq

def retryAfterOf : SendResult → Int
  | SendResult.rateLimited ms => ms
  | _ => 0

def isErrOf : SendResult → Bool
  | SendResult.ok => false
  | _ => true

/-- The result produced when the loop stops at a chunk with this response. -/
def failResult : ChunkResp → SendResult
  | ChunkResp.transportError => SendResult.transport
  | ChunkResp.status c h =>
    if c = 429 then SendResult.rateLimited (retryMsOf h) else SendResult.httpError c

/-- Model of the chunk loop in sendToDiscordWithRetry (discord.go lines
166-210): resp gives the webhook response to the i-th POST; the result
also records the indices POSTed, in order. Payload marshaling and request
construction cannot fail for these inputs and are elided. -/
def sendLoop (resp : Nat → ChunkResp) : Nat → List (List Char) → SendResult × List Nat
  | _, [] => (SendResult.ok, [])
  | i, _ :: rest =>
    match resp i with
    | ChunkResp.transportError => (SendResult.transport, [i])
    | ChunkResp.status c h =>
      if c = 429 then (SendResult.rateLimited (retryMsOf h), [i])
      else if c = 204 then
        ((sendLoop resp (i + 1) rest).1, i :: (sendLoop resp (i + 1) rest).2)
      else (SendResult.httpError c, [i])

/-- sendToDiscordWithRetry over an abstract chunk list and response
environment. -/
def sendToDiscordWithRetry (resp : Nat → ChunkResp) (chunks : List (List Char)) :
    SendResult × List Nat :=
  sendLoop resp 0 chunks

/-- The contiguous index run i, i+1, ..., i+n-1. -/
def postedRange (i n : Nat) : List Nat := (List.range n).map (fun k => i + k)

/-- Model of sendToDiscord (discord.go lines 217-226): turns a SendResult
into the Go triple (rateLimited, retryAfter, err-non-nil). -/
def sendToDiscord (r : SendResult) : Bool × Int × Bool :=
  if isErrOf r then
    if 0 < retryAfterOf r then (true, retryAfterOf r, true) else (false, 0, true)
  else (false, 0, false)

/-- Model of the QueuedMessage struct (discord.go lines 23-29), with time
as integer milliseconds. -/
structure QueuedMessage where
  webhookURL : List Char
  sender : List Char
  message : List Char
  retryAtMs : Int
  attempts : Nat
deriving DecidableEq

/-- maxRetries set by NewDiscordQueue (discord.go line 48). -/
def maxRetries : Nat := 5

/-- What processMessages decides for one ready message in a drain pass. -/
inductive DrainOutcome where
  | requeue (newAttempts : Nat)
  | dropTerminal
  | dropError
  | delivered
deriving DecidableEq

/-- Model of the per-message branch of processMessages (discord.go lines
122-154): increment attempts, re-enqueue while rate limited with budget,
otherwise drop (terminal when the incremented count reaches maxRetries). -/
def processOne (attempts : Nat) (res : SendResult) : DrainOutcome :=
  if isErrOf res then
    let a := attempts + 1
    if 0 < retryAfterOf res ∧ a < maxRetries then DrainOutcome.requeue a
    else if maxRetries ≤ a then DrainOutcome.dropTerminal
    else DrainOutcome.dropError
  else DrainOutcome.delivered

/-- The two drop branches of processMessages call logger.LogFailure
(discord.go lines 141 and 148); the others do not. -/
def logsFailure : DrainOutcome → Bool
  | DrainOutcome.dropTerminal => true
  | DrainOutcome.dropError => true
  | _ => false

/-- Successive drain outcomes for one message every one of whose sends is
rate limited with advised delay ms, starting from the given attempts value.
Each list entry corresponds to one actual send attempt in some drain pass. -/
def drainTrace : Nat → Nat → Int → List DrainOutcome
  | 0, _, _ => []
  | f + 1, a, ms =>
    match processOne a (SendResult.rateLimited ms) with
    | DrainOutcome.requeue a2 => DrainOutcome.requeue a2 :: drainTrace f a2 ms
    | o => [o]

/-- The JSON body the ingestion handler always writes. -/
def okBody : List Char := toChars "\x7b\"status\":\"ok\"\x7d"

/-- What the ingestion handler hands back to the game client and to the
queue. -/
structure HandlerResult where
  status : Nat
  body : List Char
  enqueued : Option QueuedMessage
deriving DecidableEq

/-- Model of createHandler (src/unnamed/part_002 lines 87-175): on a
non-empty message with Discord enabled it performs the first synchronous
send; a rate-limited outcome is enqueued with attempts 1 and retry time
now plus the advised delay; every path writes status 200 with the ok body.
Logging and the local-file sink are elided: they touch neither the HTTP
response nor the queue. -/
def createHandler (enableDiscord : Bool) (webhookURL sender message : List Char)
    (first : SendResult) (nowMs : Int) : HandlerResult :=
  let enq : Option QueuedMessage :=
    if message ≠ [] ∧ enableDiscord then
      let r := sendToDiscord first
      if r.2.2 then
        if r.1 then some ⟨webhookURL, sender, message, nowMs + r.2.1, 1⟩ else none
      else none
    else none
  ⟨200, okBody, enq⟩

/-- A run of ten non-space characters; chunking it with limit 10 never
terminates. -/
def aRun : List Char := List.replicate 10 'a'

end RpChatLogger

namespace RpChatLogger

/-! Sanity checks: the model reproduces the vectors of discord_test.go. -/

example : extractChunk (toChars "This is a test") 5 =
    some (dots3, toChars "... This is a test") := by decide

example : extractChunk (toChars "This is a test") 10 =
    some (toChars "This ...", toChars "... is a test") := by decide

example : extractChunk (toChars "This is a test") 15 =
    some (toChars "This is a test", []) := by decide

example : extractChunk (toChars "Testing very long words") 20 =
    some (toChars "Testing very ...", toChars "... long words") := by decide

example : splitMessage 10 (toChars "John: ")
    (toChars "This is a longer test message that will probably get split into two parts.")
    (65 - 6) =
    SplitResult.chunksOut
      [toChars "John: This is a longer test message that will probably get ...",
       toChars "John: ... split into two parts."] := by decide

example : splitMessage 10 (toChars "John: ") (toChars "") 94 =
    SplitResult.chunksOut [] := by decide

/-! Unfolding and bookkeeping lemmas for the chunker. -/

theorem splitLoop_nil (size : Int) (base : List Char) (f : Nat) :
    splitLoop size base f [] = SplitResult.chunksOut [] := by
  cases f <;> rfl

theorem splitLoop_zero (size : Int) (base : List Char) (r : List Char) (h : r ≠ []) :
    splitLoop size base 0 r = SplitResult.outOfFuel := by
  cases r with
  | nil => exact absurd rfl h
  | cons a l => rfl

theorem splitLoop_succ (size : Int) (base : List Char) (f : Nat) (a : Char) (l : List Char) :
    splitLoop size base (f + 1) (a :: l) =
      (match extractChunk (a :: l) size with
       | none => SplitResult.panicked
       | some (ck, rm) =>
         match splitLoop size base f (nextOf rm) with
         | SplitResult.chunksOut cs => SplitResult.chunksOut ((base ++ ck) :: cs)
         | other => other) := rfl

theorem nextOf_nil : nextOf [] = [] := rfl

theorem nextOf_dots4 (r : List Char) : nextOf (dots4 ++ r) = dots4 ++ r := by
  simp [nextOf, dots4, dots3]

theorem scanBack_le (msg : List Char) : ∀ n, scanBack msg n ≤ n := by
  intro n
  induction n with
  | zero => simp [scanBack]
  | succ e ih =>
    simp only [scanBack]
    split <;> omega

theorem extractChunk_none (msg : List Char) (size : Int)
    (h1 : size < (msg.length : Int)) (h2 : size - 4 < 0) :
    extractChunk msg size = none := by
  simp only [extractChunk]
  split_ifs <;> first | rfl | omega

/-- Every successful single-step extraction is one of: the message fits
strictly; an ellipsis step pushing the whole message into the remainder;
or a word-boundary cut at position e with 0 < e ≤ size - 4. -/
theorem extractChunk_cases (msg : List Char) (size : Int) (ck rm : List Char)
    (h : extractChunk msg size = some (ck, rm)) :
    ((msg.length : Int) < size ∧ ck = msg ∧ rm = [])
    ∨ (ck = dots3 ∧ rm = dots4 ++ msg ∧ ((msg.length : Int) = size ∨ 4 ≤ size))
    ∨ (∃ e : Nat, 0 < e ∧ (e : Int) ≤ size - 4 ∧
        ck = msg.take e ++ spaceDots ∧ rm = dots4 ++ msg.drop (e + 1)) := by
  simp only [extractChunk] at h
  split_ifs at h with h1 h2 h3 h4 h5
  · injection h with h'
    injection h' with hck hrm
    exact Or.inl ⟨h1, hck.symm, hrm.symm⟩
  · injection h with h'
    injection h' with hck hrm
    exact Or.inr (Or.inl ⟨hck.symm, hrm.symm, Or.inl h2⟩)
  · injection h with h'
    injection h' with hck hrm
    exact Or.inr (Or.inl ⟨hck.symm, hrm.symm, Or.inr (by omega)⟩)
  · injection h with h'
    injection h' with hck hrm
    exact Or.inr (Or.inl ⟨hck.symm, hrm.symm, Or.inr (by omega)⟩)
  · injection h with h'
    injection h' with hck hrm
    refine Or.inr (Or.inr ⟨scanBack msg (size - 4).toNat, Nat.pos_of_ne_zero h5, ?_,
      hck.symm, hrm.symm⟩)
    have hle := scanBack_le msg (size - 4).toNat
    omega

/-- With size below 4 and a remaining text longer than size, the very next
loop iteration panics (or fuel is already exhausted): the loop can never
return a chunk list from such a state. -/
theorem splitLoop_stuck (size : Int) (base : List Char) (f : Nat) (r : List Char)
    (hne : r ≠ []) (hgt : size < (r.length : Int)) (hsm : size - 4 < 0)
    (cs : List (List Char)) : splitLoop size base f r ≠ SplitResult.chunksOut cs := by
  cases f with
  | zero => rw [splitLoop_zero size base r hne]; simp
  | succ f =>
    cases r with
    | nil => exact absurd rfl hne
    | cons a l =>
      rw [splitLoop_succ, extractChunk_none (a :: l) size hgt hsm]
      simp

theorem splitLoop_eq_of {size : Int} {base : List Char} {f : Nat} {a : Char}
    {l ck rm : List Char} (hec : extractChunk (a :: l) size = some (ck, rm)) :
    splitLoop size base (f + 1) (a :: l) =
      (match splitLoop size base f (nextOf rm) with
       | SplitResult.chunksOut cs => SplitResult.chunksOut ((base ++ ck) :: cs)
       | other => other) := by
  rw [splitLoop_succ, hec]

/-- Inversion: a successful loop run from a nonempty remaining text is one
extraction step followed by a successful run on the adjusted remainder. -/
theorem splitLoop_succ_out (size : Int) (base : List Char) (f : Nat) (a : Char)
    (l : List Char) (cs : List (List Char))
    (h : splitLoop size base (f + 1) (a :: l) = SplitResult.chunksOut cs) :
    ∃ ck rm cs2, extractChunk (a :: l) size = some (ck, rm) ∧
      splitLoop size base f (nextOf rm) = SplitResult.chunksOut cs2 ∧
      cs = (base ++ ck) :: cs2 := by
  rw [splitLoop_succ] at h
  cases hec : extractChunk (a :: l) size with
  | none =>
    rw [hec] at h
    exact absurd (h : SplitResult.panicked = SplitResult.chunksOut cs) (by simp)
  | some pr =>
    obtain ⟨ck, rm⟩ := pr
    rw [hec] at h
    have h2 : (match splitLoop size base f (nextOf rm) with
       | SplitResult.chunksOut cs => SplitResult.chunksOut ((base ++ ck) :: cs)
       | other => other) = SplitResult.chunksOut cs := h
    cases hrec : splitLoop size base f (nextOf rm) with
    | chunksOut cs2 =>
      rw [hrec] at h2
      have h' : SplitResult.chunksOut ((base ++ ck) :: cs2) = SplitResult.chunksOut cs := h2
      injection h' with h''
      exact ⟨ck, rm, cs2, rfl, hrec, h''.symm⟩
    | panicked =>
      rw [hrec] at h2
      exact absurd (h2 : SplitResult.panicked = SplitResult.chunksOut cs) (by simp)
    | outOfFuel =>
      rw [hrec] at h2
      exact absurd (h2 : SplitResult.outOfFuel = SplitResult.chunksOut cs) (by simp)

/-- Every chunk in a list the split loop returns is bounded by
size + length base. -/
theorem splitLoop_bound (size : Int) (base : List Char) :
    ∀ (fuel : Nat) (r : List Char) (cs : List (List Char)),
      splitLoop size base fuel r = SplitResult.chunksOut cs →
      ∀ c ∈ cs, (c.length : Int) ≤ size + base.length := by
  intro fuel
  induction fuel with
  | zero =>
    intro r cs h c hc
    cases r with
    | nil =>
      rw [splitLoop_nil] at h
      injection h with h'
      subst h'
      simp at hc
    | cons a l =>
      rw [splitLoop_zero _ _ _ (List.cons_ne_nil a l)] at h
      exact absurd h (by simp)
  | succ f ih =>
    intro r cs h c hc
    cases r with
    | nil =>
      rw [splitLoop_nil] at h
      injection h with h'
      subst h'
      simp at hc
    | cons a l =>
      obtain ⟨ck, rm, cs2, hec, hrec, hcs⟩ := splitLoop_succ_out _ _ _ _ _ _ h
      subst hcs
      rcases List.mem_cons.mp hc with hc1 | hc2
      · subst hc1
        rcases extractChunk_cases _ _ _ _ hec with ⟨hlt, hck, hrm⟩ | ⟨hck, hrm, hsz⟩ |
          ⟨e, he0, hele, hck, hrm⟩
        · subst hck
          simp only [List.length_append]
          push_cast
          omega
        · subst hck
          have h3 : 3 ≤ size := by
            rcases hsz with hlen | h4
            · by_contra hn
              rw [hrm, nextOf_dots4] at hrec
              refine splitLoop_stuck size base f (dots4 ++ (a :: l)) (by simp [dots4]) ?_ ?_
                cs2 hrec
              · have hd4 : dots4.length = 4 := rfl
                simp only [List.length_append, hd4]
                push_cast
                omega
              · omega
            · omega
          have hd3 : dots3.length = 3 := rfl
          simp only [List.length_append, hd3]
          push_cast
          omega
        · subst hck
          have hsd : spaceDots.length = 4 := rfl
          simp only [List.length_append, List.length_take, hsd]
          push_cast
          omega
      · exact ih (nextOf rm) cs2 hrec c hc2

/-- Chunking the ten-character space-free run with limit 10 reaches the
remainder "... aaaaaaaaaa", which the next iteration reproduces verbatim:
the loop state is a fixed point and fuel always runs out. -/
theorem stuckLoop (f : Nat) :
    splitLoop 10 [] f ('.' :: '.' :: '.' :: ' ' :: aRun) = SplitResult.outOfFuel := by
  induction f with
  | zero => rfl
  | succ f ih =>
    have hec : extractChunk ('.' :: '.' :: '.' :: ' ' :: aRun) 10 =
        some (['.', '.', '.', ' ', '.', '.', '.'], '.' :: '.' :: '.' :: ' ' :: aRun) := by
      decide
    rw [splitLoop_eq_of hec]
    have hn : nextOf ('.' :: '.' :: '.' :: ' ' :: aRun) =
        '.' :: '.' :: '.' :: ' ' :: aRun := by decide
    rw [hn, ih]

/-! Lemmas about the chunk-sending loop. -/

theorem postedRange_zero (i : Nat) : postedRange i 0 = [] := rfl

theorem postedRange_succ (i n : Nat) : postedRange i (n + 1) = i :: postedRange (i + 1) n := by
  have he : ((fun k => i + k) ∘ Nat.succ) = fun k => i + 1 + k := by
    funext k
    simp only [Function.comp]
    omega
  simp [postedRange, List.range_succ_eq_map, List.map_map, he]

theorem sendLoop_cons (resp : Nat → ChunkResp) (i : Nat) (c : List Char)
    (rest : List (List Char)) :
    sendLoop resp i (c :: rest) =
      (match resp i with
       | ChunkResp.transportError => (SendResult.transport, [i])
       | ChunkResp.status code h =>
         if code = 429 then (SendResult.rateLimited (retryMsOf h), [i])
         else if code = 204 then
           ((sendLoop resp (i + 1) rest).1, i :: (sendLoop resp (i + 1) rest).2)
         else (SendResult.httpError code, [i])) := rfl

/-- When every response is the no-content status, the loop posts every
chunk in index order and returns ok. -/
theorem sendLoop_all_ok (resp : Nat → ChunkResp) :
    ∀ (cs : List (List Char)) (i : Nat),
      (∀ k, k < cs.length → respCode (resp (i + k)) = some 204) →
      sendLoop resp i cs = (SendResult.ok, postedRange i cs.length) := by
  intro cs
  induction cs with
  | nil => intro i _; rfl
  | cons c rest ih =>
    intro i h
    have h0 : respCode (resp i) = some 204 := by
      have := h 0 (by simp)
      simpa using this
    rw [sendLoop_cons]
    cases hr : resp i with
    | transportError => rw [hr] at h0; exact absurd h0 (by simp [respCode])
    | status code hd =>
      rw [hr] at h0
      have hcode : code = 204 := by
        simpa [respCode] using h0
      subst hcode
      have hrest : ∀ k, k < rest.length → respCode (resp (i + 1 + k)) = some 204 := by
        intro k hk
        have := h (k + 1) (by simp; omega)
        rwa [show i + (k + 1) = i + 1 + k by omega] at this
      rw [ih (i + 1) hrest]
      simp [postedRange_succ]

/-- When the first j responses are no-content and response j is not, the
loop posts exactly chunks 0..j (in order) and stops with the failure
result of response j. -/
theorem sendLoop_first_fail (resp : Nat → ChunkResp) :
    ∀ (cs : List (List Char)) (i j : Nat),
      j < cs.length →
      (∀ k, k < j → respCode (resp (i + k)) = some 204) →
      respCode (resp (i + j)) ≠ some 204 →
      sendLoop resp i cs = (failResult (resp (i + j)), postedRange i (j + 1)) := by
  intro cs
  induction cs with
  | nil => intro i j hj _ _; simp at hj
  | cons c rest ih =>
    intro i j hj hok hbad
    cases j with
    | zero =>
      rw [sendLoop_cons]
      cases hr : resp i with
      | transportError =>
        rw [show i + 0 = i by omega, hr]
        simp [failResult, postedRange_succ, postedRange_zero]
      | status code hd =>
        rw [show i + 0 = i by omega, hr]
        rw [show i + 0 = i by omega, hr] at hbad
        have hcode : code ≠ 204 := by
          intro hc
          exact hbad (by simp [respCode, hc])
        by_cases h429 : code = 429
        · subst h429
          simp [failResult, postedRange_succ, postedRange_zero]
        · simp [failResult, postedRange_succ, postedRange_zero, h429, hcode]
    | succ j2 =>
      have h0 : respCode (resp i) = some 204 := by
        have := hok 0 (by omega)
        simpa using this
      rw [sendLoop_cons]
      cases hr : resp i with
      | transportError => rw [hr] at h0; exact absurd h0 (by simp [respCode])
      | status code hd =>
        rw [hr] at h0
        have hcode : code = 204 := by simpa [respCode] using h0
        subst hcode
        have hok2 : ∀ k, k < j2 → respCode (resp (i + 1 + k)) = some 204 := by
          intro k hk
          have := hok (k + 1) (by omega)
          rwa [show i + (k + 1) = i + 1 + k by omega] at this
        have hbad2 : respCode (resp (i + 1 + j2)) ≠ some 204 := by
          rwa [show i + (j2 + 1) = i + 1 + j2 by omega] at hbad
        rw [ih (i + 1) j2 (by simpa using hj) hok2 hbad2]
        rw [show i + (j2 + 1) = i + 1 + j2 by omega]
        simp [postedRange_succ]

/-- If the loop returns ok then every chunk index got a no-content
response. -/
theorem sendLoop_ok_imp (resp : Nat → ChunkResp) :
    ∀ (cs : List (List Char)) (i : Nat),
      (sendLoop resp i cs).1 = SendResult.ok →
      ∀ k, k < cs.length → respCode (resp (i + k)) = some 204 := by
  intro cs
  induction cs with
  | nil => intro i _ k hk; simp at hk
  | cons c rest ih =>
    intro i h k hk
    rw [sendLoop_cons] at h
    cases hr : resp i with
    | transportError =>
      rw [hr] at h
      exact absurd (h : SendResult.transport = SendResult.ok) (by simp)
    | status code hd =>
      rw [hr] at h
      have h2 : (if code = 429 then (SendResult.rateLimited (retryMsOf hd), [i])
          else if code = 204 then
            ((sendLoop resp (i + 1) rest).1, i :: (sendLoop resp (i + 1) rest).2)
          else (SendResult.httpError code, [i])).1 = SendResult.ok := h
      by_cases h429 : code = 429
      · rw [if_pos h429] at h2
        exact absurd (h2 : SendResult.rateLimited (retryMsOf hd) = SendResult.ok) (by simp)
      · rw [if_neg h429] at h2
        by_cases h204 : code = 204
        · rw [if_pos h204] at h2
          have h' : (sendLoop resp (i + 1) rest).1 = SendResult.ok := h2
          cases k with
          | zero => rw [show i + 0 = i by omega, hr, h204]; rfl
          | succ k2 =>
            have := ih (i + 1) h' k2 (by simpa using hk)
            rwa [show i + (k2 + 1) = i + 1 + k2 by omega]
        · rw [if_neg h204] at h2
          exact absurd (h2 : SendResult.httpError code = SendResult.ok) (by simp)

/-! Claim theorems. -/

/-- C1: the spec promises that chunking any finite input terminates, in
particular a run of non-space characters; the code does not. With limit 10
and a ten-character space-free message, the split loop reaches the state
"... aaaaaaaaaa" and reproduces it forever, so splitMessage runs out of
fuel at every fuel value: the Go loop never terminates. This contradicts
the spec's termination guarantee, so the code is at fault. -/
theorem splitMessage_nonterminating_on_spaceless_run :
    ∀ fuel : Nat, splitMessage fuel [] aRun 10 = SplitResult.outOfFuel := by
  intro fuel
  cases fuel with
  | zero => rfl
  | succ f =>
    show splitLoop 10 [] (f + 1) aRun = SplitResult.outOfFuel
    have ha : aRun = 'a' :: List.replicate 9 'a' := rfl
    rw [ha]
    have hec : extractChunk ('a' :: List.replicate 9 'a') 10 =
        some (dots3, '.' :: '.' :: '.' :: ' ' :: aRun) := by decide
    rw [splitLoop_eq_of hec]
    have hn : nextOf ('.' :: '.' :: '.' :: ' ' :: aRun) =
        '.' :: '.' :: '.' :: ' ' :: aRun := by decide
    rw [hn, stuckLoop f]

/-- C2: a message rate limited on its first synchronous send is enqueued
with attempts 1; each drain attempt increments attempts and re-enqueues
exactly while the incremented count is below maxRetries; an
always-rate-limited message is requeued three times and then dropped
terminally, for 1 + 4 = maxRetries = 5 total send attempts, never more. -/
theorem discordQueue_attempt_cap (ms : Int) (hms : 0 < ms) :
    (∀ wh s m now, m ≠ [] →
      (createHandler true wh s m (SendResult.rateLimited ms) now).enqueued =
        some ⟨wh, s, m, now + ms, 1⟩)
    ∧ (∀ a a2, processOne a (SendResult.rateLimited ms) = DrainOutcome.requeue a2 →
        a + 1 < maxRetries ∧ a2 = a + 1)
    ∧ drainTrace 8 1 ms =
        [DrainOutcome.requeue 2, DrainOutcome.requeue 3, DrainOutcome.requeue 4,
         DrainOutcome.dropTerminal]
    ∧ 1 + (drainTrace 8 1 ms).length = maxRetries
    ∧ logsFailure DrainOutcome.dropTerminal = true := by
  refine ⟨?_, ?_, ?_, ?_, rfl⟩
  · intro wh s m now hm
    simp [createHandler, sendToDiscord, isErrOf, retryAfterOf, hm, hms]
  · intro a a2 h
    simp only [processOne, isErrOf, retryAfterOf, if_true] at h
    split_ifs at h with h1 h2
    injection h with h'
    exact ⟨h1.2, h'.symm⟩
  · simp [drainTrace, processOne, isErrOf, retryAfterOf, maxRetries, hms]
  · simp [drainTrace, processOne, isErrOf, retryAfterOf, maxRetries, hms]

theorem discordQueue_attempt_cap_witness :
    drainTrace 8 1 2500 =
      [DrainOutcome.requeue 2, DrainOutcome.requeue 3, DrainOutcome.requeue 4,
       DrainOutcome.dropTerminal] ∧
    1 + (drainTrace 8 1 2500).length = maxRetries := by
  have h := discordQueue_attempt_cap 2500 (by decide)
  exact ⟨h.2.2.1, h.2.2.2.1⟩

/-- C3 counterexample: a 12-character message with limit 12 satisfies the
claim's fits-within-the-limit hypothesis (length ≤ limit) yet is not
returned as a single untouched chunk, and the empty message yields zero
chunks rather than one. -/
theorem splitMessage_not_single_chunk_at_exact_fit :
    ((toChars "ab cd ef ghi").length : Int) ≤ 12 ∧
    splitMessage 10 [] (toChars "ab cd ef ghi") 12 ≠
      SplitResult.chunksOut [toChars "ab cd ef ghi"] ∧
    splitMessage 10 [] [] 12 = SplitResult.chunksOut [] := by
  exact ⟨by decide, by decide, rfl⟩

/-- C3 amended: for every nonempty message strictly shorter than the
chunk-body limit, splitMessage returns exactly one chunk equal to
header ++ message, unmodified. -/
theorem splitMessage_single_chunk_when_fits_strictly (fuel : Nat) (base msg : List Char)
    (size : Int) (h1 : msg ≠ []) (h2 : (msg.length : Int) < size) :
    splitMessage (fuel + 1) base msg size = SplitResult.chunksOut [base ++ msg] := by
  cases msg with
  | nil => exact absurd rfl h1
  | cons a l =>
    have hec : extractChunk (a :: l) size = some (a :: l, []) := by
      simp only [extractChunk]
      rw [if_pos h2]
    show splitLoop size base (fuel + 1) (a :: l) = _
    rw [splitLoop_eq_of hec, nextOf_nil, splitLoop_nil]

theorem splitMessage_single_chunk_when_fits_strictly_witness :
    splitMessage 5 (toChars "John: ") (toChars "hi") 10 =
      SplitResult.chunksOut [toChars "John: " ++ toChars "hi"] :=
  splitMessage_single_chunk_when_fits_strictly 4 (toChars "John: ") (toChars "hi") 10
    (by decide) (by decide)

/-- C4: when every chunk before position j gets the no-content status and
chunk j gets status 429, the sender stops after POSTing exactly chunks
0..j and reports rate-limited with the delay from the Retry-After header:
trunc(q*1000) milliseconds for a header parsing to q, and 5000
milliseconds when the header is absent or unparseable. -/
theorem sender_rate_limit_handling (chunks : List (List Char)) (resp : Nat → ChunkResp)
    (j : Nat) (hdr : Option (Option Rat)) (hj : j < chunks.length)
    (hok : ∀ k, k < j → respCode (resp k) = some 204)
    (hrl : resp j = ChunkResp.status 429 hdr) :
    sendToDiscordWithRetry resp chunks =
      (SendResult.rateLimited (retryMsOf hdr), postedRange 0 (j + 1))
    ∧ retryMsOf none = 5000 ∧ retryMsOf (some none) = 5000
    ∧ (∀ q : Rat, retryMsOf (some (some q)) = ratTrunc (q * 1000)) := by
  refine ⟨?_, rfl, rfl, fun q => rfl⟩
  have hok0 : ∀ k, k < j → respCode (resp (0 + k)) = some 204 := by
    intro k hk
    rw [Nat.zero_add]
    exact hok k hk
  have hbad0 : respCode (resp (0 + j)) ≠ some 204 := by
    rw [Nat.zero_add, hrl]
    simp [respCode]
  have h := sendLoop_first_fail resp chunks 0 j hj hok0 hbad0
  rw [Nat.zero_add, hrl] at h
  show sendLoop resp 0 chunks = _
  rw [h]
  simp [failResult]

theorem sender_rate_limit_handling_witness :
    sendToDiscordWithRetry
        (fun i => if i = 0 then ChunkResp.status 204 none
                  else ChunkResp.status 429 (some (some (5 / 2 : Rat))))
        [toChars "a", toChars "b", toChars "c"] =
      (SendResult.rateLimited (retryMsOf (some (some (5 / 2 : Rat)))), postedRange 0 2)
    ∧ retryMsOf (some (some (5 / 2 : Rat))) = 2500 := by
  have h := sender_rate_limit_handling [toChars "a", toChars "b", toChars "c"]
      (fun i => if i = 0 then ChunkResp.status 204 none
                else ChunkResp.status 429 (some (some (5 / 2 : Rat))))
      1 (some (some (5 / 2 : Rat))) (by decide) (by decide) rfl
  refine ⟨h.1, ?_⟩
  have hq : ((5 : Rat) / 2 * 1000) = 2500 := by norm_num
  show ratTrunc ((5 / 2 : Rat) * 1000) = 2500
  rw [hq]
  rfl

/-- C5: a drain-pass send failing with no positive retry-after delay is
never re-enqueued, regardless of remaining budget: the message is dropped
(terminally when the incremented attempt count reaches maxRetries,
otherwise as a plain error) and a failure is reported to the log sink. -/
theorem queue_drops_non_rate_limit_errors (a : Nat) (res : SendResult)
    (he : isErrOf res = true) (hra : retryAfterOf res ≤ 0) :
    (∀ a2, processOne a res ≠ DrainOutcome.requeue a2)
    ∧ logsFailure (processOne a res) = true
    ∧ processOne a res =
        (if maxRetries ≤ a + 1 then DrainOutcome.dropTerminal else DrainOutcome.dropError) := by
  have hcond : ¬(0 < retryAfterOf res ∧ a + 1 < maxRetries) := by
    intro hc
    omega
  have hp : processOne a res =
      (if maxRetries ≤ a + 1 then DrainOutcome.dropTerminal else DrainOutcome.dropError) := by
    simp [processOne, he, hcond]
  refine ⟨?_, ?_, hp⟩
  · intro a2
    rw [hp]
    split_ifs <;> simp
  · rw [hp]
    split_ifs <;> rfl

theorem queue_drops_non_rate_limit_errors_witness :
    logsFailure (processOne 1 (SendResult.httpError 500)) = true ∧
    processOne 1 (SendResult.httpError 500) = DrainOutcome.dropError := by
  have h := queue_drops_non_rate_limit_errors 1 (SendResult.httpError 500) rfl (by decide)
  exact ⟨h.2.1, (h.2.2).trans (by decide)⟩

/-- C6: a message whose length equals maxChunkBodyLength exactly is
treated as not fitting: the single-step extraction returns the ellipsis
marker as the chunk body and pushes the whole message, behind a leading
continuation marker, into the remainder. -/
theorem extractChunk_exact_length_ellipsis (msg : List Char) (size : Int)
    (h : (msg.length : Int) = size) :
    extractChunk msg size = some (dots3, dots4 ++ msg) := by
  simp only [extractChunk]
  rw [if_neg (by omega), if_pos h]

theorem extractChunk_exact_length_ellipsis_witness :
    extractChunk (toChars "ab") 2 = some (dots3, dots4 ++ toChars "ab") :=
  extractChunk_exact_length_ellipsis (toChars "ab") 2 (by decide)

/-- C7: every chunk in a list that splitMessage returns has length at most
maxChunkBodyLength plus the header length. -/
theorem splitMessage_chunk_length_bound (fuel : Nat) (base msg : List Char) (size : Int)
    (cs : List (List Char)) (h : splitMessage fuel base msg size = SplitResult.chunksOut cs) :
    ∀ c ∈ cs, (c.length : Int) ≤ size + base.length :=
  splitLoop_bound size base fuel msg cs h

theorem splitMessage_chunk_length_bound_witness :
    splitMessage 10 (toChars "John: ") (toChars "hi") 20 =
      SplitResult.chunksOut [toChars "John: hi"] ∧
    ((toChars "John: hi").length : Int) ≤ 20 + (toChars "John: ").length := by
  have he : splitMessage 10 (toChars "John: ") (toChars "hi") 20 =
      SplitResult.chunksOut [toChars "John: hi"] := by decide
  exact ⟨he, splitMessage_chunk_length_bound 10 (toChars "John: ") (toChars "hi") 20
    [toChars "John: hi"] he (toChars "John: hi") (by decide)⟩

/-- C8: the sender POSTs chunks strictly in index order, stops at the first
response that is not the no-content status, succeeds exactly when every
chunk gets the no-content status, and in that case returns zero wait and
no error. -/
theorem sender_sequential_stop_at_first_failure (resp : Nat → ChunkResp)
    (chunks : List (List Char)) :
    ((sendToDiscordWithRetry resp chunks).1 = SendResult.ok ↔
      ∀ i, i < chunks.length → respCode (resp i) = some 204)
    ∧ ((sendToDiscordWithRetry resp chunks).1 = SendResult.ok →
        sendToDiscordWithRetry resp chunks = (SendResult.ok, postedRange 0 chunks.length))
    ∧ (∀ j, j < chunks.length → (∀ i, i < j → respCode (resp i) = some 204) →
        respCode (resp j) ≠ some 204 →
        sendToDiscordWithRetry resp chunks = (failResult (resp j), postedRange 0 (j + 1)))
    ∧ retryAfterOf SendResult.ok = 0 ∧ isErrOf SendResult.ok = false := by
  have hmp : (sendToDiscordWithRetry resp chunks).1 = SendResult.ok →
      ∀ i, i < chunks.length → respCode (resp i) = some 204 := by
    intro h i hi
    have h2 := sendLoop_ok_imp resp chunks 0 h i hi
    simpa using h2
  have hmpr : (∀ i, i < chunks.length → respCode (resp i) = some 204) →
      sendToDiscordWithRetry resp chunks = (SendResult.ok, postedRange 0 chunks.length) := by
    intro h
    refine sendLoop_all_ok resp chunks 0 ?_
    intro k hk
    rw [Nat.zero_add]
    exact h k hk
  refine ⟨⟨hmp, fun h => by rw [hmpr h]⟩, fun h => hmpr (hmp h), ?_, rfl, rfl⟩
  intro j hj hok hbad
  have h := sendLoop_first_fail resp chunks 0 j hj
    (by intro k hk; rw [Nat.zero_add]; exact hok k hk)
    (by rw [Nat.zero_add]; exact hbad)
  show sendLoop resp 0 chunks = _
  rw [h, Nat.zero_add]

theorem sender_sequential_stop_at_first_failure_witness :
    sendToDiscordWithRetry (fun _ => ChunkResp.status 204 none) [toChars "x"] =
      (SendResult.ok, postedRange 0 1) := by
  have h := sender_sequential_stop_at_first_failure (fun _ => ChunkResp.status 204 none)
    [toChars "x"]
  exact h.2.1 (h.1.mpr (by decide))

/-- C9: whatever the outcome of the first synchronous send, the ingestion
handler responds to the game client with status 200 and the ok body;
delivery failure is never surfaced as an HTTP error. -/
theorem handler_always_responds_200 (enableDiscord : Bool) (wh s m : List Char)
    (first : SendResult) (nowMs : Int) :
    (createHandler enableDiscord wh s m first nowMs).status = 200 ∧
    (createHandler enableDiscord wh s m first nowMs).body = okBody :=
  ⟨rfl, rfl⟩

/-- C10 counterexample: with maxLength 3 (which is > 0) and the
four-character message "abcd", the Go variable end becomes -1 and the
slice msg[:end] panics, modelled as none. -/
theorem extractChunk_panics_on_small_maxLength :
    (0 : Int) < 3 ∧ extractChunk (toChars "abcd") 3 = none :=
  ⟨by decide, by decide⟩

/-- C10 amended: for every message and every maxLength ≥ 4, extractChunk
is total: all indexing stays in bounds and no panic occurs. -/
theorem extractChunk_total_for_maxLength_ge_four (msg : List Char) (size : Int)
    (h : 4 ≤ size) : (extractChunk msg size).isSome = true := by
  simp only [extractChunk]
  split_ifs <;> first | rfl | omega

theorem extractChunk_total_for_maxLength_ge_four_witness :
    (extractChunk (toChars "This is a test") 10).isSome = true :=
  extractChunk_total_for_maxLength_ge_four (toChars "This is a test") 10 (by decide)

end RpChatLogger
